import Mathlib

/-! Verification development for the garden measurement service
(rakelblujeans/capitalOne): the in-memory measurement store, the timestamp
validation middleware of the measurements router, and the statistics
aggregator (src/stats/index.js).

The JavaScript source is shallowly embedded: records and the cache are
association lists of strings, JavaScript numbers are modelled as exact
rationals (decimal literals parse exactly; the claims that depend on
comparisons are insensitive to double rounding because decimal-to-double
conversion is monotone), and the JavaScript runtime library functions the
code calls (parseFloat, global isNaN via ToNumber, Date parsing of ISO
strings, Date.prototype.toISOString, String.prototype.indexOf) are modelled
on the ISO-8601/decimal subset this service traffics in. -/

namespace Garden

/-! ### JavaScript values and number parsing -/

/-- Raw values flowing through the statistics code: the raw string stored in
a record, a finite number (the exact rational value of a parsed decimal
literal), or the NaN produced by a failed parse. -/
inductive JSValue where
  | str (s : String)
  | num (q : ℚ)
  | nan
deriving DecidableEq, Repr

/-- Whitespace accepted by the modelled parsers (subset of JS WhiteSpace). -/
def isSpaceCh (c : Char) : Bool :=
  c == ' ' || c == '\t' || c == '\n' || c == '\r'

/-- Value of a list of decimal digit characters, most significant first. -/
def digitsToNat (cs : List Char) : Nat :=
  cs.foldl (fun a c => a * 10 + (c.toNat - 48)) 0

/-- Consume an optional sign character; true means negative. -/
def parseSign : List Char → Bool × List Char
  | '-' :: rest => (true, rest)
  | '+' :: rest => (false, rest)
  | cs => (false, cs)

/-- Consume a well-formed exponent part (e or E, optional sign, digits). -/
def parseExpTail : List Char → Option (Int × List Char)
  | 'e' :: rest => parseExpDigits rest
  | 'E' :: rest => parseExpDigits rest
  | _ => none
where
  parseExpDigits (rest : List Char) : Option (Int × List Char) :=
    let (sgn, r2) := parseSign rest
    let (ds, r3) := r2.span Char.isDigit
    if ds.isEmpty then none
    else some ((if sgn then -(digitsToNat ds : Int) else (digitsToNat ds : Int)), r3)

/-- Exact value of a decimal literal with integer digits, fraction digits and
a power-of-ten exponent, built with mkRat so that concrete parses reduce in
the kernel. -/
def decValue (neg : Bool) (ip fp : List Char) (e : Int) : ℚ :=
  let digits : Int := (digitsToNat (ip ++ fp) : Int)
  let exp : Int := e - (fp.length : Int)
  let v : ℚ :=
    if 0 ≤ exp then mkRat (digits * (10 : Int) ^ exp.toNat) 1
    else mkRat digits ((10 : Nat) ^ (-exp).toNat)
  if neg then -v else v

/-- Models JavaScript parseFloat on decimal input: skip leading whitespace,
then read the longest prefix that is a signed decimal literal with optional
exponent; none models a NaN result. -/
def parseFloatQ (s : String) : Option ℚ :=
  let cs := s.data.dropWhile isSpaceCh
  let (neg, cs1) := parseSign cs
  let (ip, cs2) := cs1.span Char.isDigit
  let (fp, cs3) :=
    match cs2 with
    | '.' :: r => r.span Char.isDigit
    | _ => ([], cs2)
  if ip.isEmpty && fp.isEmpty then none
  else
    let e : Int :=
      match parseExpTail cs3 with
      | some (ex, _) => ex
      | none => 0
    some (decValue neg ip fp e)

/-- Models the ToNumber coercion used by the global isNaN and by relational
comparison of a string against a number: whitespace is trimmed from both
ends, the empty string converts to 0, and otherwise the whole remaining
string must be a signed decimal literal with optional exponent. -/
def jsToNumber (s : String) : Option ℚ :=
  let cs := ((s.data.dropWhile isSpaceCh).reverse.dropWhile isSpaceCh).reverse
  if cs.isEmpty then some 0
  else
    let (neg, cs1) := parseSign cs
    let (ip, cs2) := cs1.span Char.isDigit
    let (fp, cs3) :=
      match cs2 with
      | '.' :: r => r.span Char.isDigit
      | _ => ([], cs2)
    if ip.isEmpty && fp.isEmpty then none
    else
      match cs3 with
      | [] => some (decValue neg ip fp 0)
      | _ =>
        match parseExpTail cs3 with
        | some (ex, []) => some (decValue neg ip fp ex)
        | _ => none

/-- Lexicographic comparison of character lists by code unit, the JavaScript
relational comparison of two strings. -/
def lexLtL : List Char → List Char → Bool
  | _, [] => false
  | [], _ :: _ => true
  | a :: as, b :: bs =>
    if a.val < b.val then true else if b.val < a.val then false else lexLtL as bs

/-- JavaScript string relational comparison. -/
def lexLt (a b : String) : Bool := lexLtL a.data b.data

/-- Models parseFloat applied to an accumulator value: a number stays itself,
a string is parsed, NaN stays NaN. -/
def numOf : JSValue → JSValue
  | .str s =>
    match parseFloatQ s with
    | some q => .num q
    | none => .nan
  | .num q => .num q
  | .nan => .nan

/-- JavaScript relational comparison newValue < input where newValue is a raw
stored string and input is the running accumulator: string against string is
lexicographic, string against number goes through ToNumber, and any
comparison involving NaN is false. -/
def jsLtStr (a : String) (b : JSValue) : Bool :=
  match b with
  | .str t => lexLt a t
  | .num q =>
    match jsToNumber a with
    | some x => decide (x < q)
    | none => false
  | .nan => false

/-- JavaScript relational comparison newValue > input, as in jsLtStr. -/
def jsGtStr (a : String) (b : JSValue) : Bool :=
  match b with
  | .str t => lexLt t a
  | .num q =>
    match jsToNumber a with
    | some x => decide (q < x)
    | none => false
  | .nan => false

/-! ### Statistics accumulator primitives (src/stats/index.js) -/

/-- Embeds updateMinCalc: when the running value is undefined the raw new
value is taken as is; otherwise the new value replaces the accumulator when
the JavaScript comparison newValue < input holds, and the parseFloat of the
old accumulator is kept otherwise. -/
def updateMinCalc (input : Option JSValue) (newValue : String) : JSValue :=
  match input with
  | none => .str newValue
  | some i => if jsLtStr newValue i then .str newValue else numOf i

/-- Embeds updateMaxCalc, dual to updateMinCalc. -/
def updateMaxCalc (input : Option JSValue) (newValue : String) : JSValue :=
  match input with
  | none => .str newValue
  | some i => if jsGtStr newValue i then .str newValue else numOf i

/-- Embeds updateAvgCalc: reduce over the accumulated raw values with no
initial value. On a single accumulated value the callback is never called,
the raw string itself is returned, and the division sum / input.length then
coerces it with ToNumber; with two or more values the callback runs with the
first raw string as the initial accumulator, applying parseFloat to both
sides each time, and the numeric sum is divided by the count. In both shapes
none models a NaN result; the empty array, on which reduce throws, is
guarded against by the caller. -/
def updateAvgCalc (input : List String) : Option ℚ :=
  match input with
  | [] => none
  | [v] => (jsToNumber v).map (fun s => s / ((1 : Nat) : ℚ))
  | v :: rest =>
    (rest.foldl
        (fun acc val =>
          match acc, parseFloatQ val with
          | some a, some b => some (a + b)
          | _, _ => none)
        (parseFloatQ v)).map
      (fun s => s / (input.length : ℚ))

/-! ### Dates: the ISO subset of the JavaScript Date runtime -/

/-- Components of a successfully parsed date-time, always UTC. -/
structure DT where
  year : Nat
  month : Nat
  day : Nat
  hour : Nat
  minute : Nat
  second : Nat
  ms : Nat
deriving DecidableEq, Repr

/-- Gregorian leap year test. -/
def isLeap (y : Nat) : Bool :=
  y % 4 == 0 && (y % 100 != 0 || y % 400 == 0)

/-- Number of days in a month. -/
def daysInMonth (y m : Nat) : Nat :=
  if m = 2 then (if isLeap y then 29 else 28)
  else if m = 4 ∨ m = 6 ∨ m = 9 ∨ m = 11 then 30
  else 31

/-- Two decimal digit characters to a number. -/
def d2val (a b : Char) : Option Nat :=
  if a.isDigit && b.isDigit then some ((a.toNat - 48) * 10 + (b.toNat - 48)) else none

/-- Three decimal digit characters to a number. -/
def d3val (a b c : Char) : Option Nat :=
  if a.isDigit && b.isDigit && c.isDigit then
    some (((a.toNat - 48) * 10 + (b.toNat - 48)) * 10 + (c.toNat - 48))
  else none

/-- Four decimal digit characters to a number. -/
def d4val (a b c d : Char) : Option Nat :=
  if a.isDigit && b.isDigit && c.isDigit && d.isDigit then
    some ((((a.toNat - 48) * 10 + (b.toNat - 48)) * 10 + (c.toNat - 48)) * 10 + (d.toNat - 48))
  else none

/-- Parse the part after the literal T of an ISO instant: HH:mm, optional
seconds, optional milliseconds, terminated by Z. -/
def parseTimePart (y mo dy : Nat) : List Char → Option DT
  | h1 :: h2 :: ':' :: m1 :: m2 :: rest => do
    let hh ← d2val h1 h2
    let mi ← d2val m1 m2
    if hh ≤ 23 ∧ mi ≤ 59 then
      match rest with
      | ['Z'] => some ⟨y, mo, dy, hh, mi, 0, 0⟩
      | ':' :: s1 :: s2 :: rest2 => do
        let ss ← d2val s1 s2
        if ss ≤ 59 then
          match rest2 with
          | ['Z'] => some ⟨y, mo, dy, hh, mi, ss, 0⟩
          | '.' :: a :: b :: c :: ['Z'] => do
            let mss ← d3val a b c
            some ⟨y, mo, dy, hh, mi, ss, mss⟩
          | _ => none
        else none
      | _ => none
    else none
  | _ => none

/-- Models the Date parsing the service relies on, on the ISO-8601 UTC subset
it produces and consumes: a date YYYY-MM-DD, or an instant
YYYY-MM-DDTHH:mm[:ss[.sss]]Z; none models an Invalid Date. -/
def parseJSDate (s : String) : Option DT :=
  match s.data with
  | y1 :: y2 :: y3 :: y4 :: '-' :: mo1 :: mo2 :: '-' :: dd1 :: dd2 :: rest => do
    let y ← d4val y1 y2 y3 y4
    let mo ← d2val mo1 mo2
    let dy ← d2val dd1 dd2
    if 1 ≤ mo ∧ mo ≤ 12 ∧ 1 ≤ dy ∧ dy ≤ daysInMonth y mo then
      match rest with
      | [] => some ⟨y, mo, dy, 0, 0, 0, 0⟩
      | 'T' :: tr => parseTimePart y mo dy tr
      | _ => none
    else none
  | _ => none

/-- Days since 1970-01-01 of a civil date (standard civil-from-days inverse). -/
def daysFromCivil (y m d : Nat) : Int :=
  let yy : Int := if m ≤ 2 then (y : Int) - 1 else (y : Int)
  let era : Int := (if 0 ≤ yy then yy else yy - 399) / 400
  let yoe : Int := yy - era * 400
  let mp : Int := if 2 < m then (m : Int) - 3 else (m : Int) + 9
  let doy : Int := (153 * mp + 2) / 5 + (d : Int) - 1
  let doe : Int := yoe * 365 + yoe / 4 - yoe / 100 + doy
  era * 146097 + doe - 719468

/-- Epoch milliseconds of a parsed date, the number Date.parse returns. -/
def epochMs (dt : DT) : Int :=
  daysFromCivil dt.year dt.month dt.day * 86400000
    + (dt.hour : Int) * 3600000 + (dt.minute : Int) * 60000
    + (dt.second : Int) * 1000 + (dt.ms : Int)

/-- Date.parse of a stored key, none modelling NaN. -/
def keyInstant (s : String) : Option Int := (parseJSDate s).map epochMs

/-- Decimal digit character of n mod 10. -/
def digitChar (n : Nat) : Char :=
  if n % 10 = 0 then '0' else if n % 10 = 1 then '1' else if n % 10 = 2 then '2'
  else if n % 10 = 3 then '3' else if n % 10 = 4 then '4' else if n % 10 = 5 then '5'
  else if n % 10 = 6 then '6' else if n % 10 = 7 then '7' else if n % 10 = 8 then '8'
  else '9'

/-- Two-digit zero-padded rendering. -/
def d2chars (n : Nat) : List Char := [digitChar (n / 10), digitChar n]

/-- Three-digit zero-padded rendering. -/
def d3chars (n : Nat) : List Char := [digitChar (n / 100), digitChar (n / 10), digitChar n]

/-- Four-digit zero-padded rendering. -/
def d4chars (n : Nat) : List Char :=
  [digitChar (n / 1000), digitChar (n / 100), digitChar (n / 10), digitChar n]

/-- Characters of the date half of the canonical ISO rendering. -/
def dateChars (dt : DT) : List Char :=
  d4chars dt.year ++ '-' :: d2chars dt.month ++ '-' :: d2chars dt.day

/-- Characters of the time half of the canonical ISO rendering. -/
def timeChars (dt : DT) : List Char :=
  d2chars dt.hour ++ ':' :: d2chars dt.minute ++ ':' :: d2chars dt.second
    ++ '.' :: d3chars dt.ms ++ ['Z']

/-- Models Date.prototype.toISOString on a valid date: canonical
YYYY-MM-DDTHH:mm:ss.sssZ with milliseconds always present. -/
def toISOString (dt : DT) : String :=
  String.mk (dateChars dt ++ 'T' :: timeChars dt)

/-- Models String.prototype.substring(0, 10). -/
def jsSubstring10 (s : String) : String := String.mk (s.data.take 10)

/-- Embeds isTime: the identifier contains a literal T separator. -/
def isTime (s : String) : Bool := s.data.any (fun c => c == 'T')

/-- Models String.prototype.indexOf(needle) !== -1. -/
def strContains (hay needle : String) : Bool :=
  (List.range (hay.data.length + 1)).any (fun i => needle.data.isPrefixOf (hay.data.drop i))

/-! ### The measurement store (memory-cache) -/

/-- A stored measurement: field names to raw string values, in insertion
order, keys unique as in a JavaScript object. -/
abbrev Record := List (String × String)

/-- The cache: normalized timestamp keys to records, in insertion order. -/
abbrev Store := List (String × Record)

/-- First-match association lookup (JavaScript property access). -/
def lookupS : List (String × α) → String → Option α
  | [], _ => none
  | (k, v) :: rest, key => if k = key then some v else lookupS rest key

/-- Replace the value of the entry holding a key, keeping its position. -/
def replaceEntry : List (String × α) → String → α → List (String × α)
  | [], _, _ => []
  | (k, v) :: rest, key, w =>
    if k = key then (k, w) :: rest else (k, v) :: replaceEntry rest key w

/-- Models cache.put: assignment to an object property, keeping the position
of an existing key and appending a fresh one. -/
def cachePut (st : Store) (k : String) (r : Record) : Store :=
  if (lookupS st k).isSome then replaceEntry st k r else st ++ [(k, r)]

/-- Models cache.get, null becoming none. -/
def cacheGet (st : Store) (k : String) : Option Record := lookupS st k

/-- Models cache.del. -/
def cacheDel (st : Store) (k : String) : Store :=
  st.filter (fun kv => kv.1 != k)

/-! ### Measurements router (validation middleware and model functions) -/

/-- The candidate timestamp expression
params.timestamp or (Object.keys(body).length and body.timestamp):
undefined, the number 0 (empty body and no path parameter), or a string. -/
inductive TsCand where
  | absent
  | zero
  | str (s : String)
deriving DecidableEq, Repr

/-- Candidate contributed by the request body. -/
def bodyCand (body : Record) : TsCand :=
  if body.isEmpty then .zero
  else
    match lookupS body "timestamp" with
    | some s => .str s
    | none => .absent

/-- Candidate selection including the short-circuit on a falsy path param. -/
def tsCandidate (params : Option String) (body : Record) : TsCand :=
  match params with
  | some p => if p = "" then bodyCand body else .str p
  | none => bodyCand body

/-- JavaScript truthiness of the candidate. -/
def candTruthy : TsCand → Bool
  | .str s => s != ""
  | _ => false

/-- Models new Date(candidate): undefined gives an Invalid Date, the number 0
gives the epoch, a string is parsed. -/
def newDateC : TsCand → Option DT
  | .absent => none
  | .zero => some ⟨1970, 1, 1, 0, 0, 0, 0⟩
  | .str s => parseJSDate s

/-- Observable outcome of running a middleware: the responses actually
written (status, body) in order, the normalized timestamp attached to the
request if any, and whether control reached next(). -/
structure MWResult where
  responses : List (Nat × String)
  formatted : Option String
  proceeded : Bool
deriving DecidableEq, Repr

/-- The InvalidTimestamp client error message. -/
def invalidTsMsg : String := "Must provide timestamp in ISO format"

/-- Embeds validateTimestamp including its fallthrough: reportError does not
return, so after a 400 the middleware keeps executing until a runtime
exception stops it. With an invalid date, a second reportError throws
(headers already sent) when the candidate was falsy, and otherwise
date.toISOString() throws; with the numeric candidate 0 the date is valid
but timestamp.indexOf throws. In every reported case exactly one 400 response
goes out, no formatted timestamp is attached, and next() is never reached. -/
def validateTimestamp (params : Option String) (body : Record) : MWResult :=
  let cand := tsCandidate params body
  let reported1 := !(candTruthy cand)
  let resp1 : List (Nat × String) := if reported1 then [(400, invalidTsMsg)] else []
  match newDateC cand with
  | none => ⟨[(400, invalidTsMsg)], none, false⟩
  | some dt =>
    match cand with
    | .str s =>
      if reported1 then ⟨resp1, none, false⟩
      else ⟨[], some (if isTime s then toISOString dt else jsSubstring10 (toISOString dt)), true⟩
    | _ => ⟨resp1, none, false⟩

/-- Models the global isNaN applied to a stored string value. -/
def jsIsNaN (v : String) : Bool := (jsToNumber v).isNone

/-- Embeds validateNumericalData: true when every field other than timestamp
passes the isNaN coercion test. -/
def validateNumericalData (body : Record) : Bool :=
  body.all (fun fv => fv.1 == "timestamp" || !(jsIsNaN fv.2))

/-- Embeds saveMeasurement. -/
def saveMeasurement (st : Store) (timestamp : String) (data : Record) : Store :=
  cachePut st timestamp data

/-- Models Object.assign({}, oldRecord, newData): keys of the old record in
order with values overridden by the update, then fresh keys of the update. -/
def objectAssign (old upd : Record) : Record :=
  old.map (fun kv => (kv.1, (lookupS upd kv.1).getD kv.2))
    ++ upd.filter (fun kv => (lookupS old kv.1).isNone)

/-- Embeds updateMeasurement: merge the update over the existing record (or
over nothing) and write the merge back. -/
def updateMeasurement (st : Store) (timestamp : String) (newData : Record) : Store :=
  let oldRecord := (cacheGet st timestamp).getD []
  cachePut st timestamp (objectAssign oldRecord newData)

/-- Result shape of getMeasurements: a single record for an instant key, the
collected array for a date key. -/
inductive GetResult where
  | one (r : Record)
  | many (rs : List Record)
deriving DecidableEq, Repr

/-- Embeds getMeasurements: exact lookup for an instant identifier, and for a
date identifier the records of every key containing it, none when nothing is
found. -/
def getMeasurements (st : Store) (timestamp : String) : Option GetResult :=
  if isTime timestamp then (cacheGet st timestamp).map GetResult.one
  else
    let output := (st.filter (fun kv => strContains kv.1 timestamp)).map Prod.snd
    if output.isEmpty then none else some (GetResult.many output)

/-- Embeds the POST /measurements handler chain: validateTimestamp,
validateNumericalData, then saveMeasurement of the raw body at the
normalized key; some (store, key) on a completed write. -/
def postMeasurement (st : Store) (body : Record) : Option (Store × String) :=
  let vt := validateTimestamp none body
  match vt.formatted, vt.proceeded with
  | some fts, true =>
    if validateNumericalData body then some (saveMeasurement st fts body, fts) else none
  | _, _ => none

/-- Embeds the DELETE /measurements/:timestamp handler chain:
validateTimestamp, validateHasExistingData, then cache.del of the normalized
key; some of the new store on success. -/
def deleteMeasurement (st : Store) (paramTs : String) : Option Store :=
  let vt := validateTimestamp (some paramTs) []
  match vt.formatted, vt.proceeded with
  | some fts, true =>
    if (getMeasurements st fts).isSome then some (cacheDel st fts) else none
  | _, _ => none

/-! ### Statistics aggregator (src/stats/index.js) -/

/-- A stats query after query-string expansion: the requested metric names
(duplicates preserved, in order), the requested stat names, and the time
bounds. A bound is some of its Date.parse value when the query string carried
a non-empty value (a bound that fails to parse behaves exactly like some 0,
both being falsy, and is covered by that case), and none when absent. -/
structure StatsQuery where
  metrics : List String
  stats : List String
  fromDateTime : Option Int
  toDateTime : Option Int
deriving DecidableEq, Repr

/-- Embeds buildStatsParam: the output object has a key set exactly for each
allowed stat name present in the request; unrecognized names are dropped. -/
structure StatFlags where
  min : Bool
  max : Bool
  average : Bool
deriving DecidableEq, Repr

/-- Builds the stat flags from the requested stat names. -/
def buildStatsParam (stats : List String) : StatFlags :=
  ⟨stats.contains "min", stats.contains "max", stats.contains "average"⟩

/-- JavaScript truthiness of a parsed bound: absent and the epoch value 0
(and a NaN parse, which this case also models) are falsy. -/
def numTruthy : Option Int → Bool
  | none => false
  | some n => n != 0

/-- Comparison a.valueOf() <= b.valueOf(): false when either side is NaN. -/
def optLe : Option Int → Option Int → Bool
  | some a, some b => decide (a ≤ b)
  | _, _ => false

/-- Comparison a.valueOf() < b.valueOf(): false when either side is NaN. -/
def optLt : Option Int → Option Int → Bool
  | some a, some b => decide (a < b)
  | _, _ => false

/-- Embeds isWithinTimeRange: the else-if chain over the truthiness of the
parsed bounds, comparing the parsed key timestamp against them. -/
def isWithinTimeRange (timestamp : Option Int) (fromDT toDT : Option Int) : Bool :=
  if numTruthy fromDT && numTruthy toDT then
    optLe fromDT timestamp && optLt timestamp toDT
  else if numTruthy fromDT && optLe fromDT timestamp then true
  else if numTruthy toDT && optLt timestamp toDT then true
  else false

/-- A record survives the aggregation filter exactly when the loop guard
areDatesRestricted && !isWithinTimeRange(...) does not skip it. -/
def includeRecord (fromDT toDT : Option Int) (t : Option Int) : Bool :=
  !((fromDT.isSome || toDT.isSome) && !(isWithinTimeRange t fromDT toDT))

/-- Per-metric running min and max of calculateStats, both undefined when the
metric entry was just created. -/
structure RunningStat where
  min : Option JSValue
  max : Option JSValue
deriving DecidableEq, Repr

/-- The two accumulator objects of calculateStats. -/
structure StatsAcc where
  running : List (String × RunningStat)
  accumulated : List (String × List String)
deriving DecidableEq, Repr

/-- Update the value at the first entry holding a key, if any. -/
def assocUpdate : List (String × α) → String → (α → α) → List (String × α)
  | [], _, _ => []
  | (k, v) :: rest, key, f =>
    if k = key then (k, f v) :: rest else (k, v) :: assocUpdate rest key f

/-- Body of the metrics.forEach inside the record loop of calculateStats: on
a metric present in the record, create or extend its accumulated list and
fresh running entry, then fold the min and max updates when requested. -/
def processMetric (flags : StatFlags) (data : Record) (acc : StatsAcc) (metric : String) :
    StatsAcc :=
  match lookupS data metric with
  | none => acc
  | some v =>
    let acc1 :=
      if (lookupS acc.accumulated metric).isNone then
        ⟨acc.running ++ [(metric, ⟨none, none⟩)], acc.accumulated ++ [(metric, [v])]⟩
      else ⟨acc.running, assocUpdate acc.accumulated metric (fun l => l ++ [v])⟩
    let acc2 :=
      if flags.min then
        ⟨assocUpdate acc1.running metric (fun rs => ⟨some (updateMinCalc rs.min v), rs.max⟩),
          acc1.accumulated⟩
      else acc1
    if flags.max then
      ⟨assocUpdate acc2.running metric (fun rs => ⟨rs.min, some (updateMaxCalc rs.max v)⟩),
        acc2.accumulated⟩
    else acc2

/-- One record of the aggregation loop: fold every requested metric. -/
def processRecord (flags : StatFlags) (metrics : List String) (acc : StatsAcc) (data : Record) :
    StatsAcc :=
  metrics.foldl (processMetric flags data) acc

/-- The record loop of calculateStats over the cache entries, threading the
cache through the reads it performs; the second component is the cache as
the loop leaves it. -/
def statsLoop (flags : StatFlags) (metrics : List String) (fromDT toDT : Option Int)
    (restricted : Bool) : List (String × Record) → StatsAcc → StatsAcc × List (String × Record)
  | [], acc => (acc, [])
  | kv :: rest, acc =>
    let acc1 :=
      if restricted && !(isWithinTimeRange (keyInstant kv.1) fromDT toDT) then acc
      else processRecord flags metrics acc kv.2
    let r := statsLoop flags metrics fromDT toDT restricted rest acc1
    (r.1, kv :: r.2)

/-- An output tuple (metric, stat kind, value); the value is the possibly
undefined running field, or the number produced by updateAvgCalc. -/
abbrev OutTuple := String × String × Option JSValue

/-- Wrap an average result, none becoming NaN as in JavaScript. -/
def jsNumOrNaN : Option ℚ → JSValue
  | some q => .num q
  | none => .nan

/-- Body of the output forEach of calculateStats: push min, then max, when
the running entry exists, and average when accumulated data of non-zero
length exists. -/
def outputStep (flags : StatFlags) (acc : StatsAcc) (out : List OutTuple) (metric : String) :
    List OutTuple :=
  let out1 :=
    if flags.min then
      match lookupS acc.running metric with
      | some rs => out ++ [(metric, "min", rs.min)]
      | none => out
    else out
  let out2 :=
    if flags.max then
      match lookupS acc.running metric with
      | some rs => out1 ++ [(metric, "max", rs.max)]
      | none => out1
    else out1
  if flags.average then
    match lookupS acc.accumulated metric with
    | some l =>
      if l.length ≠ 0 then out2 ++ [(metric, "average", some (jsNumOrNaN (updateAvgCalc l)))]
      else out2
    | none => out2
  else out2

/-- The output loop of calculateStats: per requested metric (duplicates and
order preserved), the output step. -/
def buildOutput (flags : StatFlags) (metrics : List String) (acc : StatsAcc) : List OutTuple :=
  metrics.foldl (outputStep flags acc) []

/-- Embeds calculateStats: build the metric list and stat flags, mark the
dates restricted when a bound string was supplied, run the record loop over
the cache, and emit the output tuples; returns the tuples together with the
cache as the computation leaves it. -/
def calculateStats (q : StatsQuery) (st : Store) : List OutTuple × Store :=
  let metrics := q.metrics
  let flags := buildStatsParam q.stats
  let restricted := q.fromDateTime.isSome || q.toDateTime.isSome
  let r := statsLoop flags metrics q.fromDateTime q.toDateTime restricted st ⟨[], []⟩
  (buildOutput flags metrics r.1, r.2)

/-! ### Specification-side views of the aggregation -/

/-- Values one occurrence of a requested metric contributes for metric m on
one record. -/
def occ1 (metric : String) (data : Record) (m : String) : List String :=
  if metric = m then
    match lookupS data metric with
    | some v => [v]
    | none => []
  else []

/-- Values the requested metric list contributes for metric m on one record,
one per occurrence of m. -/
def occValues : List String → Record → String → List String
  | [], _, _ => []
  | mm :: ms, data, m => occ1 mm data m ++ occValues ms data m

/-- The sequence of observed values for metric m: over the cache entries in
order, those passing the time filter contribute their occurrence values. -/
def observedValues (metrics : List String) (fromDT toDT : Option Int) (restricted : Bool) :
    List (String × Record) → String → List String
  | [], _ => []
  | kv :: rest, m =>
    (if restricted && !(isWithinTimeRange (keyInstant kv.1) fromDT toDT) then []
      else occValues metrics kv.2 m)
      ++ observedValues metrics fromDT toDT restricted rest m

/-- Observed value sequence of a metric under a query against a store. -/
def obsOf (q : StatsQuery) (st : Store) (m : String) : List String :=
  observedValues q.metrics q.fromDateTime q.toDateTime
    (q.fromDateTime.isSome || q.toDateTime.isSome) st m

/-- The running minimum as a fold of updateMinCalc over the observed values. -/
def minFoldJS (l : List String) : Option JSValue :=
  l.foldl (fun a v => some (updateMinCalc a v)) none

/-- The running maximum as a fold of updateMaxCalc over the observed values. -/
def maxFoldJS (l : List String) : Option JSValue :=
  l.foldl (fun a v => some (updateMaxCalc a v)) none

/-- The accumulated entry a metric with the given observed values carries. -/
def obsOpt (l : List String) : Option (List String) :=
  if l = [] then none else some l

/-- The running entry a metric with the given observed values carries. -/
def statView (flags : StatFlags) (l : List String) : Option RunningStat :=
  if l = [] then none
  else some ⟨if flags.min then minFoldJS l else none, if flags.max then maxFoldJS l else none⟩

/-- The group of output tuples one requested metric occurrence contributes:
min, then max, then average, each only when requested and observed. -/
def groupFor (flags : StatFlags) (obs : List String) (m : String) : List OutTuple :=
  (if flags.min ∧ obs ≠ [] then [(m, "min", minFoldJS obs)] else [])
    ++ (if flags.max ∧ obs ≠ [] then [(m, "max", maxFoldJS obs)] else [])
    ++ (if flags.average ∧ obs ≠ [] then [(m, "average", some (jsNumOrNaN (updateAvgCalc obs)))]
      else [])

/-- Numeric reading of an output value: a number reads as itself, a raw
string through parseFloat. -/
def valQ : Option JSValue → Option ℚ
  | some (.num q) => some q
  | some (.str s) => parseFloatQ s
  | _ => none

/-- Parsed numeric value of a stored string, for stating specifications. -/
def qval (v : String) : ℚ := (parseFloatQ v).getD 0

/-- A stored value parses cleanly when parseFloat and ToNumber agree on a
value (true of every plain decimal numeral). -/
def cleanNum (v : String) : Bool :=
  match parseFloatQ v, jsToNumber v with
  | some a, some b => a == b
  | _, _ => false

/-- Correctness invariant of the aggregation loop: both accumulator objects
agree pointwise with the observed-value view. -/
def Inv (flags : StatFlags) (acc : StatsAcc) (obs : String → List String) : Prop :=
  ∀ m, lookupS acc.accumulated m = obsOpt (obs m)
    ∧ lookupS acc.running m = statView flags (obs m)

/-- A candidate timestamp is invalid when it is absent (undefined or the
numeric 0 of an empty body), the empty string, or an unparsable string. -/
def invalidCand (c : TsCand) : Prop :=
  c = .absent ∨ c = .zero ∨ ∃ s, c = .str s ∧ (s = "" ∨ parseJSDate s = none)

/-! ### Association list lemmas -/

theorem lookupS_append (l1 l2 : List (String × α)) (k : String) :
    lookupS (l1 ++ l2) k = (lookupS l1 k).orElse (fun _ => lookupS l2 k) := by
  induction l1 with
  | nil => simp [lookupS]
  | cons kv rest ih =>
    obtain ⟨k0, v0⟩ := kv
    by_cases h : k0 = k <;> simp [lookupS, h, ih]

theorem lookupS_assocUpdate_self (l : List (String × α)) (k : String) (f : α → α) :
    lookupS (assocUpdate l k f) k = (lookupS l k).map f := by
  induction l with
  | nil => simp [lookupS, assocUpdate]
  | cons kv rest ih =>
    obtain ⟨k0, v0⟩ := kv
    by_cases h : k0 = k <;> simp [lookupS, assocUpdate, h, ih]

theorem lookupS_assocUpdate_ne (l : List (String × α)) (k k2 : String) (f : α → α)
    (h : k2 ≠ k) : lookupS (assocUpdate l k f) k2 = lookupS l k2 := by
  induction l with
  | nil => simp [assocUpdate]
  | cons kv rest ih =>
    obtain ⟨k0, v0⟩ := kv
    by_cases h0 : k0 = k
    · subst h0
      simp [lookupS, assocUpdate, Ne.symm h]
    · by_cases h2 : k0 = k2 <;> simp [lookupS, assocUpdate, h0, h2, h, ih]

theorem lookupS_replaceEntry_self (l : List (String × α)) (k : String) (w : α)
    (h : (lookupS l k).isSome) : lookupS (replaceEntry l k w) k = some w := by
  induction l with
  | nil => simp [lookupS] at h
  | cons kv rest ih =>
    obtain ⟨k0, v0⟩ := kv
    by_cases h0 : k0 = k
    · simp [lookupS, replaceEntry, h0]
    · simp [lookupS, replaceEntry, h0] at h ⊢
      exact ih h

theorem lookupS_replaceEntry_ne (l : List (String × α)) (k k2 : String) (w : α)
    (h : k2 ≠ k) : lookupS (replaceEntry l k w) k2 = lookupS l k2 := by
  induction l with
  | nil => simp [replaceEntry]
  | cons kv rest ih =>
    obtain ⟨k0, v0⟩ := kv
    by_cases h0 : k0 = k
    · subst h0
      simp [lookupS, replaceEntry, Ne.symm h]
    · by_cases h2 : k0 = k2 <;> simp [lookupS, replaceEntry, h0, h2, h, ih]

theorem cacheGet_cachePut_self (st : Store) (k : String) (r : Record) :
    cacheGet (cachePut st k r) k = some r := by
  unfold cacheGet cachePut
  by_cases h : (lookupS st k).isSome
  · simp [h, lookupS_replaceEntry_self st k r h]
  · simp [h, lookupS_append, lookupS]
    simp at h
    simp [h, lookupS]

theorem cacheGet_cacheDel_self (st : Store) (k : String) :
    cacheGet (cacheDel st k) k = none := by
  induction st with
  | nil => rfl
  | cons kv rest ih =>
    obtain ⟨k0, v0⟩ := kv
    by_cases h : k0 = k <;>
      simp_all [cacheGet, cacheDel, lookupS, List.filter_cons, bne_iff_ne]

theorem cacheGet_cacheDel_ne (st : Store) (k k2 : String) (h : k2 ≠ k) :
    cacheGet (cacheDel st k) k2 = cacheGet st k2 := by
  induction st with
  | nil => rfl
  | cons kv rest ih =>
    obtain ⟨k0, v0⟩ := kv
    by_cases h0 : k0 = k
    · subst h0
      simp_all [cacheGet, cacheDel, lookupS, List.filter_cons, bne_iff_ne, Ne.symm h]
    · by_cases h2 : k0 = k2 <;>
        simp_all [cacheGet, cacheDel, lookupS, List.filter_cons, bne_iff_ne]

theorem lookupS_append_single_ne (l : List (String × α)) (k0 k : String) (v : α)
    (h : k ≠ k0) : lookupS (l ++ [(k0, v)]) k = lookupS l k := by
  rw [lookupS_append]
  have h2 : lookupS [(k0, v)] k = none := by simp [lookupS, Ne.symm h]
  rw [h2]
  cases lookupS l k <;> rfl

theorem lookupS_append_single_self (l : List (String × α)) (k : String) (v : α)
    (h : lookupS l k = none) : lookupS (l ++ [(k, v)]) k = some v := by
  rw [lookupS_append, h]
  simp [lookupS]

/-! ### Aggregation loop invariant -/

theorem Inv_congr {flags : StatFlags} {acc : StatsAcc} {o1 o2 : String → List String}
    (h : ∀ m, o1 m = o2 m) (hi : Inv flags acc o1) : Inv flags acc o2 := by
  intro m
  rw [← h m]
  exact hi m

theorem minFoldJS_append (l : List String) (v : String) :
    minFoldJS (l ++ [v]) = some (updateMinCalc (minFoldJS l) v) := by
  simp [minFoldJS, List.foldl_append]

theorem maxFoldJS_append (l : List String) (v : String) :
    maxFoldJS (l ++ [v]) = some (updateMaxCalc (maxFoldJS l) v) := by
  simp [maxFoldJS, List.foldl_append]

theorem processMetric_inv (flags : StatFlags) (data : Record) (mm : String)
    (acc : StatsAcc) (obs : String → List String) (h : Inv flags acc obs) :
    Inv flags (processMetric flags data acc mm) (fun m => obs m ++ occ1 mm data m) := by
  intro m
  cases hd : lookupS data mm with
  | none =>
    have hocc : occ1 mm data m = [] := by
      unfold occ1
      by_cases hmm : mm = m
      · subst hmm; simp [hd]
      · simp [hmm]
    simp only [processMetric, hd, hocc, List.append_nil]
    exact h m
  | some v =>
    by_cases hmm : mm = m
    · subst hmm
      have hA := (h mm).1
      have hR := (h mm).2
      have hocc : occ1 mm data mm = [v] := by simp [occ1, hd]
      by_cases hob : obs mm = []
      · have hAn : lookupS acc.accumulated mm = none := by rw [hA, hob]; rfl
        have hRn : lookupS acc.running mm = none := by rw [hR, hob]; rfl
        simp only [processMetric, hd, hAn, Option.isNone_none, if_true]
        by_cases hfm : flags.min <;> by_cases hfx : flags.max <;>
          simp [hfm, hfx, hocc, hob, lookupS_append_single_self _ _ _ hAn,
            lookupS_append_single_self _ _ _ hRn, lookupS_assocUpdate_self,
            obsOpt, statView, minFoldJS, maxFoldJS, updateMinCalc, updateMaxCalc]
      · have hAs : lookupS acc.accumulated mm = some (obs mm) := by
          rw [hA]; simp [obsOpt, hob]
        have hRs : lookupS acc.running mm
            = some ⟨if flags.min then minFoldJS (obs mm) else none,
                if flags.max then maxFoldJS (obs mm) else none⟩ := by
          rw [hR]; simp [statView, hob]
        have hAnn : (lookupS acc.accumulated mm).isNone = false := by simp [hAs]
        simp only [processMetric, hd, hAnn]
        by_cases hfm : flags.min <;> by_cases hfx : flags.max <;>
          simp [hfm, hfx, hocc, hob, hAs, hRs, lookupS_assocUpdate_self,
            obsOpt, statView, minFoldJS_append, maxFoldJS_append]
    · have hocc : occ1 mm data m = [] := by simp [occ1, hmm]
      have hA := (h m).1
      have hR := (h m).2
      have hne : m ≠ mm := fun hc => hmm hc.symm
      simp only [processMetric, hd, hocc, List.append_nil]
      by_cases hab : (lookupS acc.accumulated mm).isNone <;>
        by_cases hfm : flags.min <;> by_cases hfx : flags.max <;>
        simp [hab, hfm, hfx, lookupS_append_single_ne _ _ _ _ hne,
          lookupS_assocUpdate_ne _ _ _ _ hne, hA, hR]

theorem processRecord_inv (flags : StatFlags) (data : Record) :
    ∀ (ms : List String) (acc : StatsAcc) (obs : String → List String), Inv flags acc obs →
      Inv flags (ms.foldl (processMetric flags data) acc)
        (fun m => obs m ++ occValues ms data m) := by
  intro ms
  induction ms with
  | nil =>
    intro acc obs h
    exact Inv_congr (fun m => by simp [occValues]) h
  | cons mm ms ih =>
    intro acc obs h
    have h1 := processMetric_inv flags data mm acc obs h
    have h2 := ih (processMetric flags data acc mm) _ h1
    exact Inv_congr (fun m => by simp [occValues, List.append_assoc]) h2

theorem statsLoop_inv (flags : StatFlags) (metrics : List String) (f t : Option Int)
    (r : Bool) :
    ∀ (entries : List (String × Record)) (acc : StatsAcc) (obs : String → List String),
      Inv flags acc obs →
      Inv flags (statsLoop flags metrics f t r entries acc).1
        (fun m => obs m ++ observedValues metrics f t r entries m) := by
  intro entries
  induction entries with
  | nil =>
    intro acc obs h
    exact Inv_congr (fun m => by simp [observedValues]) h
  | cons kv rest ih =>
    intro acc obs h
    by_cases hg : (r && !(isWithinTimeRange (keyInstant kv.1) f t)) = true
    · have h2 := ih acc obs h
      have h3 : Inv flags (statsLoop flags metrics f t r (kv :: rest) acc).1
          (fun m => obs m ++ observedValues metrics f t r rest m) := by
        simpa [statsLoop, hg] using h2
      exact Inv_congr (fun m => by simp [observedValues, hg]) h3
    · have h1 := processRecord_inv flags kv.2 metrics acc obs h
      have h2 := ih (processRecord flags metrics acc kv.2) _ h1
      have h3 : Inv flags (statsLoop flags metrics f t r (kv :: rest) acc).1
          (fun m => obs m ++ occValues metrics kv.2 m
            ++ observedValues metrics f t r rest m) := by
        simpa [statsLoop, processRecord, hg] using h2
      exact Inv_congr (fun m => by simp [observedValues, hg, List.append_assoc]) h3

theorem statsLoop_snd (flags : StatFlags) (metrics : List String) (f t : Option Int)
    (r : Bool) : ∀ (entries : List (String × Record)) (acc : StatsAcc),
      (statsLoop flags metrics f t r entries acc).2 = entries := by
  intro entries
  induction entries with
  | nil => intro acc; rfl
  | cons kv rest ih => intro acc; simp [statsLoop, ih]

theorem outputStep_eq (flags : StatFlags) (acc : StatsAcc) (m : String)
    (obsm : List String) (hA : lookupS acc.accumulated m = obsOpt obsm)
    (hR : lookupS acc.running m = statView flags obsm) (out : List OutTuple) :
    outputStep flags acc out m = out ++ groupFor flags obsm m := by
  by_cases hob : obsm = []
  · have hAn : lookupS acc.accumulated m = none := by rw [hA, hob]; rfl
    have hRn : lookupS acc.running m = none := by rw [hR, hob]; rfl
    simp [outputStep, groupFor, hAn, hRn, hob]
  · have hAs : lookupS acc.accumulated m = some obsm := by rw [hA]; simp [obsOpt, hob]
    have hRs : lookupS acc.running m
        = some ⟨if flags.min then minFoldJS obsm else none,
            if flags.max then maxFoldJS obsm else none⟩ := by
      rw [hR]; simp [statView, hob]
    have hlen : obsm.length ≠ 0 := by simpa using hob
    by_cases hfm : flags.min <;> by_cases hfx : flags.max <;>
      by_cases hfa : flags.average <;>
      simp [outputStep, groupFor, hAs, hRs, hob, hlen, hfm, hfx, hfa]

theorem buildOutput_eq (flags : StatFlags) (acc : StatsAcc) (obsF : String → List String)
    (h : Inv flags acc obsF) :
    ∀ (metrics : List String) (out : List OutTuple),
      metrics.foldl (outputStep flags acc) out
        = out ++ (metrics.map (fun m => groupFor flags (obsF m) m)).flatten := by
  intro metrics
  induction metrics with
  | nil => intro out; simp
  | cons mm ms ih =>
    intro out
    simp only [List.foldl_cons, List.map_cons, List.flatten_cons]
    rw [outputStep_eq flags acc mm (obsF mm) (h mm).1 (h mm).2, ih, List.append_assoc]

/-- Master description of the aggregation output: calculateStats emits, for
each requested metric occurrence in request order, the group of tuples
determined by the sequence of observed values of that metric among the
records passing the time filter. -/
theorem calculateStats_fst_eq (q : StatsQuery) (st : Store) :
    (calculateStats q st).1
      = (q.metrics.map
          (fun m => groupFor (buildStatsParam q.stats) (obsOf q st m) m)).flatten := by
  have hInv0 : Inv (buildStatsParam q.stats) ⟨[], []⟩ (fun _ => []) := by
    intro m
    exact ⟨rfl, rfl⟩
  have hloop := statsLoop_inv (buildStatsParam q.stats) q.metrics q.fromDateTime
    q.toDateTime (q.fromDateTime.isSome || q.toDateTime.isSome) st ⟨[], []⟩ (fun _ => []) hInv0
  have hInvF : Inv (buildStatsParam q.stats)
      (statsLoop (buildStatsParam q.stats) q.metrics q.fromDateTime q.toDateTime
        (q.fromDateTime.isSome || q.toDateTime.isSome) st ⟨[], []⟩).1
      (obsOf q st) := Inv_congr (fun m => by simp [obsOf]) hloop
  have hout := buildOutput_eq _ _ _ hInvF q.metrics []
  simpa [calculateStats, buildOutput] using hout

/-! ### Claim theorems -/

/-- Claim C10 (confirmed): calculateStats never modifies the measurement
store; the mapping of keys to records it leaves behind is the one it was
given — the aggregation threads the cache through its reads unchanged. -/
theorem calculateStats_preserves_store (q : StatsQuery) (st : Store) :
    (calculateStats q st).2 = st := by
  simp [calculateStats, statsLoop_snd]

/-- Claim C8 (confirmed): the output of calculateStats is the concatenation,
over the requested metrics in request order, of that metric's group of
tuples, and within a group the order is min, then max, then average, each
present exactly when requested and when the metric has at least one observed
value; a metric with no observed values has the empty group, so it
contributes no tuples for any requested statistic. -/
theorem calculateStats_output_grouping (q : StatsQuery) (st : Store) :
    (calculateStats q st).1
      = (q.metrics.map
          (fun m => groupFor (buildStatsParam q.stats) (obsOf q st m) m)).flatten
    ∧ ∀ fl m, groupFor fl [] m = [] := by
  refine ⟨calculateStats_fst_eq q st, ?_⟩
  intro fl m
  simp [groupFor]

/-- Claim C2 (corrected): the half-open time filter semantics hold for
supplied bounds whose parsed epoch value is nonzero: with both bounds a
record is included iff fromDateTime <= t < toDateTime, with only a lower
bound iff fromDateTime <= t, with only an upper bound iff t < toDateTime,
and with no bounds always. However a supplied bound parsing to 0 (the epoch
instant) still activates filtering but is falsy inside the range test and is
ignored there: with both bounds at the epoch, or only a lower bound at the
epoch, every record is excluded, and an epoch bound beside a nonzero bound
leaves only the nonzero bound checked. -/
theorem includeRecord_halfOpen (t f u : Int) (hf : f ≠ 0) (hu : u ≠ 0) :
    (includeRecord (some f) (some u) (some t) = decide (f ≤ t ∧ t < u))
    ∧ (includeRecord (some f) none (some t) = decide (f ≤ t))
    ∧ (includeRecord none (some u) (some t) = decide (t < u))
    ∧ (includeRecord none none (some t) = true)
    ∧ (includeRecord (some 0) none (some t) = false)
    ∧ (includeRecord none (some 0) (some t) = false)
    ∧ (includeRecord (some 0) (some u) (some t) = decide (t < u))
    ∧ (includeRecord (some f) (some 0) (some t) = decide (f ≤ t))
    ∧ (includeRecord (some 0) (some 0) (some t) = false) := by
  have hf2 : (f != 0) = true := by simpa using hf
  have hu2 : (u != 0) = true := by simpa using hu
  refine ⟨?_, ?_, ?_, ?_, ?_, ?_, ?_, ?_, ?_⟩ <;>
    simp [includeRecord, isWithinTimeRange, numTruthy, optLe, optLt, hf2, hu2,
      Bool.and_eq_true, decide_eq_true_eq]

/-- Witness for claim C2: with fromDateTime 5 and toDateTime 7, a record
exactly at the lower bound is included while a record exactly at the upper
bound is excluded. -/
theorem includeRecord_halfOpen_witness :
    includeRecord (some 5) (some 7) (some 5) = true
    ∧ includeRecord (some 5) (some 7) (some 7) = false := by
  have h1 := (includeRecord_halfOpen 5 5 7 (by decide) (by decide)).1
  have h2 := (includeRecord_halfOpen 7 5 7 (by decide) (by decide)).1
  refine ⟨?_, ?_⟩
  · rw [h1]; decide
  · rw [h2]; decide

/-- Counterexample to claim C2 as stated: the supplied lower bound
1970-01-01T00:00:00.000Z parses to 0; a record one day later should be
included by the claim (only fromDateTime supplied and instant at least the
bound) but the loop filter excludes it. -/
theorem includeRecord_epoch_counterexample :
    keyInstant "1970-01-01T00:00:00.000Z" = some 0
    ∧ keyInstant "1970-01-02T00:00:00.000Z" = some 86400000
    ∧ includeRecord (some 0) none (some 86400000) = false
    ∧ (0 : Int) ≤ 86400000 := by
  refine ⟨by decide, by decide, by decide, by decide⟩

/-- Claim C3 (confirmed): when the candidate timestamp identifier is absent,
empty, or does not parse, the middleware sends exactly the 400
InvalidTimestamp response, attaches no normalized timestamp to the request,
and the handler chain never proceeds past validateTimestamp (the code falls
through reportError, but the exception raised afterwards stops it before
next()). -/
theorem validateTimestamp_invalid_rejects (params : Option String) (body : Record)
    (h : invalidCand (tsCandidate params body)) :
    (validateTimestamp params body).responses = [(400, invalidTsMsg)]
    ∧ (validateTimestamp params body).formatted = none
    ∧ (validateTimestamp params body).proceeded = false := by
  rcases h with h | h | ⟨s, hs, hcase⟩
  · simp [validateTimestamp, h, newDateC]
  · simp [validateTimestamp, h, newDateC, candTruthy, invalidTsMsg]
  · rcases hcase with he | hp
    · subst he
      simp [validateTimestamp, hs, newDateC, parseJSDate]
    · simp [validateTimestamp, hs, newDateC, hp]

/-- Witness for claim C3: a body carrying no timestamp field is rejected
with the InvalidTimestamp error and the chain stops. -/
theorem validateTimestamp_invalid_rejects_witness :
    (validateTimestamp none [("temperature", "5")]).responses = [(400, invalidTsMsg)]
    ∧ (validateTimestamp none [("temperature", "5")]).formatted = none
    ∧ (validateTimestamp none [("temperature", "5")]).proceeded = false :=
  validateTimestamp_invalid_rejects none [("temperature", "5")] (Or.inl (by decide))

theorem isPrefixOf_self (l : List Char) : l.isPrefixOf l = true := by
  induction l with
  | nil => rfl
  | cons a rest ih => simp [List.isPrefixOf, ih]

theorem strContains_refl (s : String) : strContains s s = true := by
  unfold strContains
  refine List.any_eq_true.mpr ⟨0, ?_, ?_⟩
  · simp
  · simp only [List.drop_zero]
    exact isPrefixOf_self s.data

theorem mem_cachePut_self (st : Store) (k : String) (r : Record) :
    (k, r) ∈ cachePut st k r := by
  unfold cachePut
  by_cases h : (lookupS st k).isSome
  · simp only [h, if_true]
    induction st with
    | nil => simp [lookupS] at h
    | cons kv rest ih =>
      obtain ⟨k0, v0⟩ := kv
      by_cases h0 : k0 = k
      · subst h0
        simp [replaceEntry]
      · simp only [replaceEntry, h0, if_false]
        simp only [lookupS, h0, if_false] at h
        simpa using Or.inr (ih h)
  · simp [h]

theorem filter_isEmpty_eq_not_any (l : List α) (p : α → Bool) :
    (l.filter p).isEmpty = !(l.any p) := by
  induction l with
  | nil => rfl
  | cons a rest ih => by_cases h : p a <;> simp [List.filter_cons, h, ih]

/-- Claim C5 (corrected): for a full-instant key (one containing the T
separator) a put followed by a get returns exactly the stored fields; for a
date-only key the read instead returns the collected list of all records
whose keys contain the date string, among which the stored record appears. -/
theorem saveMeasurement_roundtrip (st : Store) (k : String) (fields : Record) :
    (isTime k = true →
      getMeasurements (saveMeasurement st k fields) k = some (GetResult.one fields))
    ∧ (isTime k = false →
      ∃ rs, getMeasurements (saveMeasurement st k fields) k = some (GetResult.many rs)
        ∧ fields ∈ rs) := by
  constructor
  · intro hk
    simp [getMeasurements, hk, saveMeasurement, cacheGet_cachePut_self]
  · intro hk
    have hmem : (k, fields) ∈ cachePut st k fields := mem_cachePut_self st k fields
    have hmem2 : (k, fields) ∈ (cachePut st k fields).filter
        (fun kv => strContains kv.1 k) := by
      refine List.mem_filter.mpr ⟨hmem, ?_⟩
      simpa using strContains_refl k
    have hmem3 : fields ∈ ((cachePut st k fields).filter
        (fun kv => strContains kv.1 k)).map Prod.snd :=
      List.mem_map.mpr ⟨(k, fields), hmem2, rfl⟩
    have hne : ((cachePut st k fields).filter
        (fun kv => strContains kv.1 k)).map Prod.snd ≠ [] :=
      List.ne_nil_of_mem hmem3
    refine ⟨((cachePut st k fields).filter (fun kv => strContains kv.1 k)).map Prod.snd,
      ?_, hmem3⟩
    simp only [getMeasurements, hk, Bool.false_eq_true, if_false, saveMeasurement]
    simp [List.isEmpty_iff, hne]

/-- Witness for claim C5: storing at an instant key and at a date-only key;
the instant round trip is exact, the date read contains the stored record. -/
theorem saveMeasurement_roundtrip_witness :
    getMeasurements (saveMeasurement [] "2015-09-01T16:00:00.000Z" [("temperature", "27.1")])
        "2015-09-01T16:00:00.000Z"
      = some (GetResult.one [("temperature", "27.1")])
    ∧ ∃ rs, getMeasurements (saveMeasurement [] "2015-09-01" [("precipitation", "2.0")])
        "2015-09-01" = some (GetResult.many rs) ∧ [("precipitation", "2.0")] ∈ rs := by
  constructor
  · exact (saveMeasurement_roundtrip [] "2015-09-01T16:00:00.000Z"
      [("temperature", "27.1")]).1 (by decide)
  · exact (saveMeasurement_roundtrip [] "2015-09-01" [("precipitation", "2.0")]).2 (by decide)

/-- Counterexample to claim C5 as stated: with an instant record of the same
day already stored, putting fields at the date-only key 2015-09-01 and
reading that key back returns the collected list of both records, not
exactly the stored fields. -/
theorem getMeasurements_dateKey_counterexample :
    getMeasurements
        (saveMeasurement [("2015-09-01T16:00:00.000Z", [("temperature", "27.1")])]
          "2015-09-01" [("precipitation", "2.0")])
        "2015-09-01"
      = some (GetResult.many [[("temperature", "27.1")], [("precipitation", "2.0")]])
    ∧ GetResult.many [[("temperature", "27.1")], [("precipitation", "2.0")]]
        ≠ GetResult.one [("precipitation", "2.0")]
    ∧ GetResult.many [[("temperature", "27.1")], [("precipitation", "2.0")]]
        ≠ GetResult.many [[("precipitation", "2.0")]] := by
  refine ⟨by decide, by decide, by decide⟩

theorem lookupS_map_overlay (old upd : Record) (f : String) :
    lookupS (old.map (fun kv => (kv.1, (lookupS upd kv.1).getD kv.2))) f
      = (lookupS old f).map (fun v => (lookupS upd f).getD v) := by
  induction old with
  | nil => rfl
  | cons kv rest ih =>
    obtain ⟨k0, v0⟩ := kv
    by_cases h : k0 = f
    · subst h
      simp [lookupS]
    · simp [lookupS, h, ih]

theorem lookupS_filter_keyPred (l : Record) (p : String → Bool) (f : String) :
    lookupS (l.filter (fun kv => p kv.1)) f = if p f then lookupS l f else none := by
  induction l with
  | nil => simp [lookupS]
  | cons kv rest ih =>
    obtain ⟨k0, v0⟩ := kv
    by_cases h0 : k0 = f
    · subst h0
      by_cases hp : p k0 <;> simp [List.filter_cons, hp, lookupS, ih]
    · by_cases hp : p k0 <;> simp [List.filter_cons, hp, lookupS, h0, ih]

theorem lookupS_objectAssign (old upd : Record) (f : String) :
    lookupS (objectAssign old upd) f
      = (lookupS upd f).orElse (fun _ => lookupS old f) := by
  unfold objectAssign
  rw [lookupS_append, lookupS_map_overlay,
    lookupS_filter_keyPred upd (fun x => (lookupS old x).isNone) f]
  cases ho : lookupS old f <;> cases hu : lookupS upd f <;>
    simp [ho, hu, Option.orElse]

theorem objectAssign_nil (upd : Record) : objectAssign [] upd = upd := by
  unfold objectAssign
  simp only [List.map_nil, List.nil_append]
  exact List.filter_eq_self.mpr (fun a _ => rfl)

/-- Claim C6 (confirmed): the partial update writes back, at the key, the
overlay of the supplied fields on the existing record: a field present in
the update reads as its new value, a field only in the existing record keeps
its previous value, and when no record existed the merge is exactly the
supplied fields. -/
theorem updateMeasurement_merges (st : Store) (k : String) (upd : Record) :
    cacheGet (updateMeasurement st k upd) k
      = some (objectAssign ((cacheGet st k).getD []) upd)
    ∧ (∀ f, lookupS (objectAssign ((cacheGet st k).getD []) upd) f
        = (lookupS upd f).orElse (fun _ => lookupS ((cacheGet st k).getD []) f))
    ∧ (cacheGet st k = none → objectAssign ((cacheGet st k).getD []) upd = upd) := by
  refine ⟨?_, ?_, ?_⟩
  · simp [updateMeasurement, cacheGet_cachePut_self]
  · intro f
    exact lookupS_objectAssign _ upd f
  · intro h
    rw [h]
    exact objectAssign_nil upd

/-- Witness for claim C6: merging an update of field a over a record with
fields a and b keeps b and overwrites a, and merging into an absent record
stores exactly the supplied fields. -/
theorem updateMeasurement_merges_witness :
    cacheGet (updateMeasurement [("K", [("a", "0"), ("b", "2")])] "K" [("a", "1")]) "K"
      = some [("a", "1"), ("b", "2")]
    ∧ objectAssign ((cacheGet ([] : Store) "K").getD []) [("a", "1")] = [("a", "1")] := by
  constructor
  · have h := (updateMeasurement_merges [("K", [("a", "0"), ("b", "2")])] "K" [("a", "1")]).1
    rw [h]
    decide
  · exact (updateMeasurement_merges [] "K" [("a", "1")]).2.2 (by decide)

theorem digitChar_ne_T (n : Nat) : (digitChar n == 'T') = false := by
  unfold digitChar
  split_ifs <;> rfl

theorem dateChars_length (dt : DT) : (dateChars dt).length = 10 := by
  simp [dateChars, d4chars, d2chars]

theorem sub10_toISOString (dt : DT) :
    jsSubstring10 (toISOString dt) = String.mk (dateChars dt) := by
  unfold jsSubstring10 toISOString
  have h : (dateChars dt ++ 'T' :: timeChars dt).take 10 = dateChars dt := by
    rw [show 10 = (dateChars dt).length from (dateChars_length dt).symm]
    exact List.take_left _ _
  rw [show (String.mk (dateChars dt ++ 'T' :: timeChars dt)).data
      = dateChars dt ++ 'T' :: timeChars dt from rfl, h]

theorem isTime_dateOnly (dt : DT) :
    isTime (jsSubstring10 (toISOString dt)) = false := by
  rw [sub10_toISOString]
  show (dateChars dt).any (fun c => c == 'T') = false
  simp [dateChars, d4chars, d2chars, digitChar_ne_T]

theorem parseJSDate_empty : parseJSDate "" = none := rfl

/-- Inversion of a successful validateTimestamp run: the candidate was a
non-empty parsable string and the attached normalized timestamp is its
canonical rendering, truncated to the date for a date-only identifier. -/
theorem validateTimestamp_success (params : Option String) (body : Record)
    (h : (validateTimestamp params body).proceeded = true) :
    ∃ s dt, tsCandidate params body = .str s ∧ s ≠ "" ∧ parseJSDate s = some dt
      ∧ (validateTimestamp params body).formatted
        = some (if isTime s then toISOString dt else jsSubstring10 (toISOString dt)) := by
  rcases hc : tsCandidate params body with _ | _ | s
  · simp [validateTimestamp, hc, newDateC] at h
  · simp [validateTimestamp, hc, newDateC] at h
  · cases hps : parseJSDate s with
    | none => simp [validateTimestamp, hc, newDateC, hps] at h
    | some dt =>
      by_cases hse : s = ""
      · subst hse
        rw [parseJSDate_empty] at hps
        exact absurd hps (by simp)
      · refine ⟨s, dt, rfl, hse, hps, ?_⟩
        have hct : candTruthy (.str s) = true := by simpa [candTruthy] using hse
        simp [validateTimestamp, hc, newDateC, hps, hct]

theorem bodyCand_str (body : Record) (s : String) (h : bodyCand body = .str s) :
    lookupS body "timestamp" = some s := by
  unfold bodyCand at h
  by_cases he : body.isEmpty
  · simp [he] at h
  · simp only [he, Bool.false_eq_true, if_false] at h
    cases hl : lookupS body "timestamp" with
    | none => simp [hl] at h
    | some w => simp_all

/-- Claim C9 (confirmed): a DELETE with a valid date-only identifier passes
the existence check exactly when some stored key contains the date string
(any instant record of that day qualifies), and on success the deletion only
removes the record at the exact date-only key: every record stored under a
full-instant key is still present and unchanged. -/
theorem deleteMeasurement_dateOnly (st : Store) (p : String) (dt : DT)
    (hp : parseJSDate p = some dt) (hd : isTime p = false) :
    ((deleteMeasurement st p).isSome
      = st.any (fun kv => strContains kv.1 (jsSubstring10 (toISOString dt))))
    ∧ (∀ st2, deleteMeasurement st p = some st2 →
        (∀ k, isTime k = true → cacheGet st2 k = cacheGet st k)
        ∧ cacheGet st2 (jsSubstring10 (toISOString dt)) = none) := by
  have hpne : p ≠ "" := by
    intro he
    rw [he, parseJSDate_empty] at hp
    exact absurd hp (by simp)
  have hct : candTruthy (.str p) = true := by simpa [candTruthy] using hpne
  have hvt : validateTimestamp (some p) []
      = ⟨[], some (jsSubstring10 (toISOString dt)), true⟩ := by
    simp [validateTimestamp, tsCandidate, hpne, newDateC, hp, hct, hd]
  have hdel : deleteMeasurement st p
      = if (getMeasurements st (jsSubstring10 (toISOString dt))).isSome
        then some (cacheDel st (jsSubstring10 (toISOString dt))) else none := by
    simp [deleteMeasurement, hvt]
  have hmapE : ∀ (l : List (String × Record)), (l.map Prod.snd).isEmpty = l.isEmpty := by
    intro l
    cases l <;> rfl
  have hget : (getMeasurements st (jsSubstring10 (toISOString dt))).isSome
      = st.any (fun kv => strContains kv.1 (jsSubstring10 (toISOString dt))) := by
    simp only [getMeasurements, isTime_dateOnly dt, Bool.false_eq_true, if_false]
    have hfe : ((st.filter
        (fun kv => strContains kv.1 (jsSubstring10 (toISOString dt)))).map
          Prod.snd).isEmpty
        = !(st.any (fun kv => strContains kv.1 (jsSubstring10 (toISOString dt)))) := by
      rw [hmapE, filter_isEmpty_eq_not_any]
    rw [hfe]
    cases st.any (fun kv => strContains kv.1 (jsSubstring10 (toISOString dt))) <;> simp
  constructor
  · rw [hdel, hget]
    by_cases hx : st.any (fun kv => strContains kv.1 (jsSubstring10 (toISOString dt))) = true
    · simp [hx]
    · simp only [Bool.not_eq_true] at hx
      simp [hx]
  · intro st2 h2
    rw [hdel] at h2
    by_cases hx : (getMeasurements st (jsSubstring10 (toISOString dt))).isSome
    · simp only [hx, if_true, Option.some_inj] at h2
      subst h2
      refine ⟨?_, cacheGet_cacheDel_self st _⟩
      intro k hk
      refine cacheGet_cacheDel_ne st _ k ?_
      intro he
      rw [he, isTime_dateOnly dt] at hk
      exact Bool.false_ne_true hk
    · simp [hx] at h2

/-- Witness for claim C9: deleting by the date 2015-09-01 while only an
instant record of that day exists succeeds, and the instant record is still
present and unchanged afterwards. -/
theorem deleteMeasurement_dateOnly_witness :
    (deleteMeasurement [("2015-09-01T16:00:00.000Z", [("temperature", "27.1")])]
        "2015-09-01").isSome = true
    ∧ ∀ st2,
        deleteMeasurement [("2015-09-01T16:00:00.000Z", [("temperature", "27.1")])]
          "2015-09-01" = some st2 →
        cacheGet st2 "2015-09-01T16:00:00.000Z" = some [("temperature", "27.1")] := by
  have h := deleteMeasurement_dateOnly
    [("2015-09-01T16:00:00.000Z", [("temperature", "27.1")])] "2015-09-01"
    ⟨2015, 9, 1, 0, 0, 0, 0⟩ (by decide) (by decide)
  constructor
  · rw [h.1]
    decide
  · intro st2 hs
    have h2 := (h.2 st2 hs).1 "2015-09-01T16:00:00.000Z" (by decide)
    rw [h2]
    decide

/-- Claim C4 (corrected): a completed create/replace write stores, at the
normalized key, exactly the raw request body: every non-timestamp field
passed the isNaN coercion check (which is weaker than parseFloat
parseability), and the timestamp field inside the record is the raw
submitted string, whose canonical rendering, not itself, is the storage
key. -/
theorem postMeasurement_stored (st : Store) (body : Record) (st2 : Store) (fts : String)
    (h : postMeasurement st body = some (st2, fts)) :
    cacheGet st2 fts = some body
    ∧ (∀ fv ∈ body, fv.1 ≠ "timestamp" → jsIsNaN fv.2 = false)
    ∧ ∃ raw dt, lookupS body "timestamp" = some raw ∧ parseJSDate raw = some dt
        ∧ fts = (if isTime raw then toISOString dt else jsSubstring10 (toISOString dt)) := by
  rcases hprc : (validateTimestamp none body).proceeded with _ | _
  · rcases hfm : (validateTimestamp none body).formatted with _ | f <;>
      simp [postMeasurement, hfm, hprc] at h
  · rcases hfm : (validateTimestamp none body).formatted with _ | f
    · simp [postMeasurement, hfm, hprc] at h
    · rcases hnum : validateNumericalData body with _ | _
      · simp [postMeasurement, hfm, hprc, hnum] at h
      · simp only [postMeasurement, hfm, hprc, hnum, if_true, Option.some_inj] at h
        obtain ⟨hst, hf⟩ : saveMeasurement st f body = st2 ∧ f = fts := by
          constructor
          · exact congrArg Prod.fst h
          · exact congrArg Prod.snd h
        subst hf
        subst hst
        obtain ⟨s, dt, hcand, hse, hps, hfmt⟩ := validateTimestamp_success none body hprc
        rw [hfm] at hfmt
        refine ⟨cacheGet_cachePut_self st f body, ?_, s, dt, ?_, hps, ?_⟩
        · intro fv hfv hne
          have := List.all_eq_true.mp hnum fv hfv
          rcases Bool.or_eq_true_iff.mp this with hx | hx
          · exact absurd (eq_of_beq hx) hne
          · simpa using hx
        · exact bodyCand_str body s (by simpa [tsCandidate] using hcand)
        · exact Option.some_inj.mp hfmt


/-- Counterexample to claim C4 as stated: the POST of a body whose
temperature field is the empty string (which isNaN accepts but parseFloat
cannot parse) and whose timestamp lacks milliseconds completes; the stored
record violates both claimed invariants: field temperature is not parseable
as a float, and the stored timestamp field differs from the normalized
storage key. -/
theorem postMeasurement_counterexample :
    postMeasurement [] [("timestamp", "2015-09-01T16:00:00Z"), ("temperature", "")]
      = some ([("2015-09-01T16:00:00.000Z",
          [("timestamp", "2015-09-01T16:00:00Z"), ("temperature", "")])],
        "2015-09-01T16:00:00.000Z")
    ∧ parseFloatQ "" = none
    ∧ lookupS [("timestamp", "2015-09-01T16:00:00Z"), ("temperature", "")] "timestamp"
        = some "2015-09-01T16:00:00Z"
    ∧ "2015-09-01T16:00:00Z" ≠ "2015-09-01T16:00:00.000Z" := by
  refine ⟨by decide, by decide, by decide, by decide⟩

/-- Witness for claim C4: a completed write of a well-formed body is stored
as submitted at the canonical key, with the numeric field passing the isNaN
check. -/
theorem postMeasurement_stored_witness :
    cacheGet [("2015-09-01T16:00:00.000Z",
        [("timestamp", "2015-09-01T16:00:00.000Z"), ("temperature", "27.1")])]
      "2015-09-01T16:00:00.000Z"
      = some [("timestamp", "2015-09-01T16:00:00.000Z"), ("temperature", "27.1")]
    ∧ jsIsNaN "27.1" = false := by
  have h := postMeasurement_stored []
    [("timestamp", "2015-09-01T16:00:00.000Z"), ("temperature", "27.1")]
    [("2015-09-01T16:00:00.000Z",
      [("timestamp", "2015-09-01T16:00:00.000Z"), ("temperature", "27.1")])]
    "2015-09-01T16:00:00.000Z" (by decide)
  exact ⟨h.1, h.2.1 ("temperature", "27.1") (by decide) (by decide)⟩

theorem cleanNum_spec (v : String) (h : cleanNum v = true) :
    parseFloatQ v = some (qval v) ∧ jsToNumber v = some (qval v) := by
  unfold cleanNum at h
  cases hp : parseFloatQ v with
  | none =>
    rw [hp] at h
    cases hj : jsToNumber v <;> rw [hj] at h <;> simp at h
  | some a =>
    cases hj : jsToNumber v with
    | none =>
      rw [hp, hj] at h
      simp at h
    | some b =>
      rw [hp, hj] at h
      have hab : a = b := by simpa using h
      subst hab
      refine ⟨?_, ?_⟩ <;> simp [qval, hp]

theorem foldl_some_eq (f : Option JSValue → String → JSValue) :
    ∀ (l : List String) (a : JSValue),
      l.foldl (fun acc v => some (f acc v)) (some a)
        = some (l.foldl (fun acc v => f (some acc) v) a) := by
  intro l
  induction l with
  | nil => intro a; rfl
  | cons v rest ih =>
    intro a
    simp only [List.foldl_cons]
    exact ih (f (some a) v)

theorem minFoldJS_cons (v : String) (rest : List String) :
    minFoldJS (v :: rest)
      = some (rest.foldl (fun acc w => updateMinCalc (some acc) w) (.str v)) := by
  unfold minFoldJS
  simp only [List.foldl_cons]
  exact foldl_some_eq updateMinCalc rest (.str v)

theorem maxFoldJS_cons (v : String) (rest : List String) :
    maxFoldJS (v :: rest)
      = some (rest.foldl (fun acc w => updateMaxCalc (some acc) w) (.str v)) := by
  unfold maxFoldJS
  simp only [List.foldl_cons]
  exact foldl_some_eq updateMaxCalc rest (.str v)

theorem foldl_min_le (l : List ℚ) :
    ∀ a : ℚ, l.foldl min a ≤ a ∧ ∀ y ∈ l, l.foldl min a ≤ y := by
  induction l with
  | nil =>
    intro a
    exact ⟨le_refl a, by simp⟩
  | cons b t ih =>
    intro a
    have h := ih (min a b)
    refine ⟨le_trans h.1 (min_le_left a b), ?_⟩
    intro y hy
    rcases List.mem_cons.mp hy with hy | hy
    · subst hy
      exact le_trans h.1 (min_le_right a y)
    · exact h.2 y hy

theorem foldl_min_mem (l : List ℚ) :
    ∀ a : ℚ, l.foldl min a = a ∨ l.foldl min a ∈ l := by
  induction l with
  | nil => intro a; exact Or.inl rfl
  | cons b t ih =>
    intro a
    rcases ih (min a b) with h | h
    · rcases min_choice a b with hm | hm
      · exact Or.inl (by rw [List.foldl_cons, h, hm])
      · refine Or.inr ?_
        rw [List.foldl_cons, h, hm]
        simp
    · exact Or.inr (List.mem_cons.mpr (Or.inr (by rw [List.foldl_cons]; exact h)))

theorem foldl_max_ge (l : List ℚ) :
    ∀ a : ℚ, a ≤ l.foldl max a ∧ ∀ y ∈ l, y ≤ l.foldl max a := by
  induction l with
  | nil =>
    intro a
    exact ⟨le_refl a, by simp⟩
  | cons b t ih =>
    intro a
    have h := ih (max a b)
    refine ⟨le_trans (le_max_left a b) h.1, ?_⟩
    intro y hy
    rcases List.mem_cons.mp hy with hy | hy
    · subst hy
      exact le_trans (le_max_right a y) h.1
    · exact h.2 y hy

theorem foldl_max_mem (l : List ℚ) :
    ∀ a : ℚ, l.foldl max a = a ∨ l.foldl max a ∈ l := by
  induction l with
  | nil => intro a; exact Or.inl rfl
  | cons b t ih =>
    intro a
    rcases ih (max a b) with h | h
    · rcases max_choice a b with hm | hm
      · exact Or.inl (by rw [List.foldl_cons, h, hm])
      · refine Or.inr ?_
        rw [List.foldl_cons, h, hm]
        simp
    · exact Or.inr (List.mem_cons.mpr (Or.inr (by rw [List.foldl_cons]; exact h)))

theorem minFold_inv (L : List String)
    (hclean : ∀ v ∈ L, cleanNum v = true)
    (hagree : ∀ v ∈ L, ∀ w ∈ L, lexLt v w = decide (qval v < qval w)) :
    ∀ (vals : List String), (∀ v ∈ vals, v ∈ L) →
      ∀ (j : JSValue) (m0 : ℚ),
        (j = .num m0 ∨ ∃ s, j = .str s ∧ s ∈ L ∧ parseFloatQ s = some m0) →
        (vals.foldl (fun acc v => updateMinCalc (some acc) v) j
            = .num ((vals.map qval).foldl min m0)
          ∨ ∃ s, vals.foldl (fun acc v => updateMinCalc (some acc) v) j = .str s
              ∧ s ∈ L ∧ parseFloatQ s = some ((vals.map qval).foldl min m0)) := by
  intro vals
  induction vals with
  | nil =>
    intro _ j m0 hj
    simpa using hj
  | cons v rest ih =>
    intro hsub j m0 hj
    have hvL : v ∈ L := hsub v (List.mem_cons_self v rest)
    have hsub2 : ∀ w ∈ rest, w ∈ L := fun w hw => hsub w (List.mem_cons_of_mem v hw)
    have hcv := cleanNum_spec v (hclean v hvL)
    have hcmp : jsLtStr v j = decide (qval v < m0) := by
      rcases hj with hj | ⟨s, hjs, hsL, hsp⟩
      · subst hj
        simp [jsLtStr, hcv.2]
      · subst hjs
        have hqs : qval s = m0 := by simp [qval, hsp]
        rw [show jsLtStr v (.str s) = lexLt v s from rfl, hagree v hvL s hsL, hqs]
    have hnum : numOf j = .num m0 := by
      rcases hj with hj | ⟨s, hjs, hsL, hsp⟩
      · subst hj
        rfl
      · subst hjs
        simp [numOf, hsp]
    simp only [List.foldl_cons, List.map_cons]
    by_cases hlt : qval v < m0
    · have hstep : updateMinCalc (some j) v = .str v := by
        simp [updateMinCalc, hcmp, hlt]
      rw [hstep]
      have hmin : min m0 (qval v) = qval v := min_eq_right (le_of_lt hlt)
      rw [hmin]
      exact ih hsub2 (.str v) (qval v) (Or.inr ⟨v, rfl, hvL, hcv.1⟩)
    · have hstep : updateMinCalc (some j) v = .num m0 := by
        simp [updateMinCalc, hcmp, hlt, hnum]
      rw [hstep]
      have hmin : min m0 (qval v) = m0 := min_eq_left (not_lt.mp hlt)
      rw [hmin]
      exact ih hsub2 (.num m0) m0 (Or.inl rfl)

theorem maxFold_inv (L : List String)
    (hclean : ∀ v ∈ L, cleanNum v = true)
    (hagree : ∀ v ∈ L, ∀ w ∈ L, lexLt v w = decide (qval v < qval w)) :
    ∀ (vals : List String), (∀ v ∈ vals, v ∈ L) →
      ∀ (j : JSValue) (m0 : ℚ),
        (j = .num m0 ∨ ∃ s, j = .str s ∧ s ∈ L ∧ parseFloatQ s = some m0) →
        (vals.foldl (fun acc v => updateMaxCalc (some acc) v) j
            = .num ((vals.map qval).foldl max m0)
          ∨ ∃ s, vals.foldl (fun acc v => updateMaxCalc (some acc) v) j = .str s
              ∧ s ∈ L ∧ parseFloatQ s = some ((vals.map qval).foldl max m0)) := by
  intro vals
  induction vals with
  | nil =>
    intro _ j m0 hj
    simpa using hj
  | cons v rest ih =>
    intro hsub j m0 hj
    have hvL : v ∈ L := hsub v (List.mem_cons_self v rest)
    have hsub2 : ∀ w ∈ rest, w ∈ L := fun w hw => hsub w (List.mem_cons_of_mem v hw)
    have hcv := cleanNum_spec v (hclean v hvL)
    have hcmp : jsGtStr v j = decide (m0 < qval v) := by
      rcases hj with hj | ⟨s, hjs, hsL, hsp⟩
      · subst hj
        simp [jsGtStr, hcv.2]
      · subst hjs
        have hqs : qval s = m0 := by simp [qval, hsp]
        rw [show jsGtStr v (.str s) = lexLt s v from rfl, hagree s hsL v hvL, hqs]
    have hnum : numOf j = .num m0 := by
      rcases hj with hj | ⟨s, hjs, hsL, hsp⟩
      · subst hj
        rfl
      · subst hjs
        simp [numOf, hsp]
    simp only [List.foldl_cons, List.map_cons]
    by_cases hlt : m0 < qval v
    · have hstep : updateMaxCalc (some j) v = .str v := by
        simp [updateMaxCalc, hcmp, hlt]
      rw [hstep]
      have hmax : max m0 (qval v) = qval v := max_eq_right (le_of_lt hlt)
      rw [hmax]
      exact ih hsub2 (.str v) (qval v) (Or.inr ⟨v, rfl, hvL, hcv.1⟩)
    · have hstep : updateMaxCalc (some j) v = .num m0 := by
        simp [updateMaxCalc, hcmp, hlt, hnum]
      rw [hstep]
      have hmax : max m0 (qval v) = m0 := max_eq_left (not_lt.mp hlt)
      rw [hmax]
      exact ih hsub2 (.num m0) m0 (Or.inl rfl)

theorem contains_of_mem (l : List String) (a : String) (h : a ∈ l) :
    l.contains a = true := by
  induction l with
  | nil => simp at h
  | cons b t ih =>
    rcases List.mem_cons.mp h with h | h
    · subst h
      simp [List.contains_cons]
    · simp [List.contains_cons, h]

theorem mem_calculateStats_of_mem_group (q : StatsQuery) (st : Store) (m : String)
    (hm : m ∈ q.metrics) (tu : OutTuple)
    (ht : tu ∈ groupFor (buildStatsParam q.stats) (obsOf q st m) m) :
    tu ∈ (calculateStats q st).1 := by
  rw [calculateStats_fst_eq]
  exact List.mem_flatten.mpr ⟨groupFor (buildStatsParam q.stats) (obsOf q st m) m,
    List.mem_map.mpr ⟨m, hm, rfl⟩, ht⟩

/-- Claim C1 (corrected): the running min/max comparisons are JavaScript
relational comparisons on the raw accumulator (lexicographic when both sides
are strings), so the emitted min (resp. max) equals the numeric minimum
(resp. maximum) of the parsed observed values only under the hypothesis that
lexicographic order of the observed raw strings agrees with numeric order
(as with the fixed-format seed data, and in particular the temperature
27.1/27.3/27.5 example); the accumulator is still initialized by the first
observed raw value. -/
theorem calculateStats_min_max_agreement (q : StatsQuery) (st : Store) (m : String)
    (hm : m ∈ q.metrics) (hmin : "min" ∈ q.stats) (hmax : "max" ∈ q.stats)
    (hobs : obsOf q st m ≠ [])
    (hclean : ∀ v ∈ obsOf q st m, cleanNum v = true)
    (hagree : ∀ v ∈ obsOf q st m, ∀ w ∈ obsOf q st m,
      lexLt v w = decide (qval v < qval w)) :
    ((m, "min", minFoldJS (obsOf q st m)) ∈ (calculateStats q st).1
      ∧ ∃ x, valQ (minFoldJS (obsOf q st m)) = some x
          ∧ x ∈ (obsOf q st m).map qval ∧ ∀ y ∈ (obsOf q st m).map qval, x ≤ y)
    ∧ ((m, "max", maxFoldJS (obsOf q st m)) ∈ (calculateStats q st).1
      ∧ ∃ x, valQ (maxFoldJS (obsOf q st m)) = some x
          ∧ x ∈ (obsOf q st m).map qval ∧ ∀ y ∈ (obsOf q st m).map qval, y ≤ x) := by
  have hfmin : (buildStatsParam q.stats).min = true := contains_of_mem q.stats "min" hmin
  have hfmax : (buildStatsParam q.stats).max = true := contains_of_mem q.stats "max" hmax
  have hmemMin : (m, "min", minFoldJS (obsOf q st m)) ∈ (calculateStats q st).1 := by
    refine mem_calculateStats_of_mem_group q st m hm _ ?_
    simp [groupFor, hfmin, hobs]
  have hmemMax : (m, "max", maxFoldJS (obsOf q st m)) ∈ (calculateStats q st).1 := by
    refine mem_calculateStats_of_mem_group q st m hm _ ?_
    simp [groupFor, hfmax, hobs]
  rcases hx : obsOf q st m with _ | ⟨v, rest⟩
  · exact absurd hx hobs
  rw [hx] at hclean hagree hmemMin hmemMax
  have hvL : v ∈ v :: rest := List.mem_cons_self v rest
  have hcv := cleanNum_spec v (hclean v hvL)
  have hsub : ∀ w ∈ rest, w ∈ v :: rest := fun w hw => List.mem_cons_of_mem v hw
  have hminv := minFold_inv (v :: rest) hclean hagree rest hsub (.str v) (qval v)
    (Or.inr ⟨v, rfl, hvL, hcv.1⟩)
  have hmaxv := maxFold_inv (v :: rest) hclean hagree rest hsub (.str v) (qval v)
    (Or.inr ⟨v, rfl, hvL, hcv.1⟩)
  constructor
  · refine ⟨hmemMin, ((rest.map qval).foldl min (qval v)), ?_, ?_, ?_⟩
    · rw [minFoldJS_cons]
      rcases hminv with hr | ⟨s, hr, _, hsp⟩
      · rw [hr]
        rfl
      · rw [hr]
        simpa [valQ] using hsp
    · rcases foldl_min_mem (rest.map qval) (qval v) with h | h
      · rw [h]
        simp
      · simp [List.mem_cons.mpr (Or.inr h)]
    · intro y hy
      rw [List.map_cons] at hy
      rcases List.mem_cons.mp hy with hy2 | hy2
      · subst hy2
        exact (foldl_min_le (rest.map qval) (qval v)).1
      · exact (foldl_min_le (rest.map qval) (qval v)).2 y hy2
  · refine ⟨hmemMax, ((rest.map qval).foldl max (qval v)), ?_, ?_, ?_⟩
    · rw [maxFoldJS_cons]
      rcases hmaxv with hr | ⟨s, hr, _, hsp⟩
      · rw [hr]
        rfl
      · rw [hr]
        simpa [valQ] using hsp
    · rcases foldl_max_mem (rest.map qval) (qval v) with h | h
      · rw [h]
        simp
      · simp [List.mem_cons.mpr (Or.inr h)]
    · intro y hy
      rw [List.map_cons] at hy
      rcases List.mem_cons.mp hy with hy2 | hy2
      · subst hy2
        exact (foldl_max_ge (rest.map qval) (qval v)).1
      · exact (foldl_max_ge (rest.map qval) (qval v)).2 y hy2

/-- Counterexample to claim C1 as stated: over stored temperature values 9
then 10 (valid numeric data the service accepts), the emitted min tuple
carries the raw string 10, whose numeric value 10 is not the minimum 9 of
the observed values under numeric comparison, and the emitted max is 9
rather than 10 — the second comparison is lexicographic on the strings. -/
theorem calculateStats_min_counterexample :
    (calculateStats ⟨["temperature"], ["min", "max"], none, none⟩
        [("2015-09-01T16:00:00.000Z",
          [("timestamp", "2015-09-01T16:00:00.000Z"), ("temperature", "9")]),
         ("2015-09-01T16:10:00.000Z",
          [("timestamp", "2015-09-01T16:10:00.000Z"), ("temperature", "10")])]).1
      = [("temperature", "min", some (JSValue.str "10")),
         ("temperature", "max", some (JSValue.num 9))]
    ∧ valQ (some (JSValue.str "10")) = some 10
    ∧ valQ (some (JSValue.num 9)) = some 9
    ∧ qval "9" = 9 ∧ qval "10" = 10
    ∧ ¬((10 : ℚ) ≤ 9) := by
  refine ⟨by decide, by decide, by decide, by decide, by decide, by decide⟩

/-- Witness for claim C1: the spec example — temperature values 27.1, 27.3,
27.5 — satisfies the agreement hypotheses, the min tuple is emitted with
numeric value 27.1, and 27.1 is the least observed value. -/
theorem calculateStats_min_max_agreement_witness :
    ("temperature", "min", some (JSValue.num (mkRat 271 10)))
      ∈ (calculateStats ⟨["temperature"], ["min", "max"], none, none⟩
        [("2015-09-01T16:00:00.000Z",
          [("timestamp", "2015-09-01T16:00:00.000Z"), ("temperature", "27.1")]),
         ("2015-09-01T16:10:00.000Z",
          [("timestamp", "2015-09-01T16:10:00.000Z"), ("temperature", "27.3")]),
         ("2015-09-01T16:20:00.000Z",
          [("timestamp", "2015-09-01T16:20:00.000Z"), ("temperature", "27.5")])]).1 := by
  have h := (calculateStats_min_max_agreement
    ⟨["temperature"], ["min", "max"], none, none⟩
    [("2015-09-01T16:00:00.000Z",
      [("timestamp", "2015-09-01T16:00:00.000Z"), ("temperature", "27.1")]),
     ("2015-09-01T16:10:00.000Z",
      [("timestamp", "2015-09-01T16:10:00.000Z"), ("temperature", "27.3")]),
     ("2015-09-01T16:20:00.000Z",
      [("timestamp", "2015-09-01T16:20:00.000Z"), ("temperature", "27.5")])]
    "temperature" (by decide) (by decide) (by decide) (by decide) (by decide)
    (by decide)).1.1
  have he : minFoldJS (obsOf ⟨["temperature"], ["min", "max"], none, none⟩
      [("2015-09-01T16:00:00.000Z",
        [("timestamp", "2015-09-01T16:00:00.000Z"), ("temperature", "27.1")]),
       ("2015-09-01T16:10:00.000Z",
        [("timestamp", "2015-09-01T16:10:00.000Z"), ("temperature", "27.3")]),
       ("2015-09-01T16:20:00.000Z",
        [("timestamp", "2015-09-01T16:20:00.000Z"), ("temperature", "27.5")])]
      "temperature") = some (JSValue.num (mkRat 271 10)) := by decide
  rwa [he] at h

theorem avgFold_aux (l : List String) (h : ∀ v ∈ l, (parseFloatQ v).isSome) :
    ∀ a : ℚ,
      l.foldl
          (fun acc val =>
            match acc, parseFloatQ val with
            | some a, some b => some (a + b)
            | _, _ => none)
          (some a)
        = some (a + (l.map qval).sum) := by
  induction l with
  | nil => intro a; simp
  | cons v rest ih =>
    intro a
    have hv : parseFloatQ v = some (qval v) := by
      rcases Option.isSome_iff_exists.mp (h v (List.mem_cons_self v rest)) with ⟨x, hx⟩
      simp [qval, hx]
    simp only [List.foldl_cons, hv]
    rw [ih (fun w hw => h w (List.mem_cons_of_mem v hw)) (a + qval v)]
    simp only [List.map_cons, List.sum_cons, Option.some_inj]
    ring

theorem updateAvgCalc_eq_mean (l : List String) (hne : l ≠ [])
    (h : ∀ v ∈ l, cleanNum v = true) :
    updateAvgCalc l = some ((l.map qval).sum / (l.length : ℚ)) := by
  cases l with
  | nil => exact absurd rfl hne
  | cons v rest =>
    have hv := cleanNum_spec v (h v (List.mem_cons_self v rest))
    cases rest with
    | nil =>
      simp only [updateAvgCalc, hv.2]
      simp [List.map_cons, List.sum_cons]
    | cons w rest2 =>
      have hp : ∀ u ∈ w :: rest2, (parseFloatQ u).isSome := fun u hu => by
        rw [(cleanNum_spec u (h u (List.mem_cons_of_mem v hu))).1]
        rfl
      simp only [updateAvgCalc]
      rw [hv.1, avgFold_aux (w :: rest2) hp (qval v)]
      simp [List.map_cons, List.sum_cons]

/-- Claim C7 (confirmed): for a metric with at least one observed value
among the filtered records, all of them valid floats as the component
assumes by contract — formalized as parseFloat and ToNumber agreeing on a
value, since a lone observed value is returned by reduce uncalled and
coerced by the division via ToNumber while further values go through
parseFloat — the emitted average equals the arithmetic mean: the
left-to-right sum of the parsed values divided by their count, computed here
in exact arithmetic. -/
theorem calculateStats_average_mean (q : StatsQuery) (st : Store) (m : String)
    (hm : m ∈ q.metrics) (ha : "average" ∈ q.stats)
    (hobs : obsOf q st m ≠ [])
    (hp : ∀ v ∈ obsOf q st m, cleanNum v = true) :
    (m, "average",
        some (JSValue.num (((obsOf q st m).map qval).sum / ((obsOf q st m).length : ℚ))))
      ∈ (calculateStats q st).1 := by
  have hfa : (buildStatsParam q.stats).average = true := contains_of_mem q.stats "average" ha
  refine mem_calculateStats_of_mem_group q st m hm _ ?_
  have havg := updateAvgCalc_eq_mean (obsOf q st m) hobs hp
  simp [groupFor, hfa, hobs, havg, jsNumOrNaN]

/-- Witness for claim C7: the spec example — dewPoint values 16.9, 17.1,
17.3 — has average exactly 17.1. -/
theorem calculateStats_average_mean_witness :
    ("dewPoint", "average", some (JSValue.num (mkRat 171 10)))
      ∈ (calculateStats ⟨["dewPoint"], ["average"], none, none⟩
        [("2015-09-01T16:00:00.000Z",
          [("timestamp", "2015-09-01T16:00:00.000Z"), ("dewPoint", "16.9")]),
         ("2015-09-01T16:10:00.000Z",
          [("timestamp", "2015-09-01T16:10:00.000Z"), ("dewPoint", "17.1")]),
         ("2015-09-01T16:20:00.000Z",
          [("timestamp", "2015-09-01T16:20:00.000Z"), ("dewPoint", "17.3")])]).1 := by
  have h := calculateStats_average_mean
    ⟨["dewPoint"], ["average"], none, none⟩
    [("2015-09-01T16:00:00.000Z",
      [("timestamp", "2015-09-01T16:00:00.000Z"), ("dewPoint", "16.9")]),
     ("2015-09-01T16:10:00.000Z",
      [("timestamp", "2015-09-01T16:10:00.000Z"), ("dewPoint", "17.1")]),
     ("2015-09-01T16:20:00.000Z",
      [("timestamp", "2015-09-01T16:20:00.000Z"), ("dewPoint", "17.3")])]
    "dewPoint" (by decide) (by decide) (by decide) (by decide)
  have hobs : obsOf ⟨["dewPoint"], ["average"], none, none⟩
      [("2015-09-01T16:00:00.000Z",
        [("timestamp", "2015-09-01T16:00:00.000Z"), ("dewPoint", "16.9")]),
       ("2015-09-01T16:10:00.000Z",
        [("timestamp", "2015-09-01T16:10:00.000Z"), ("dewPoint", "17.1")]),
       ("2015-09-01T16:20:00.000Z",
        [("timestamp", "2015-09-01T16:20:00.000Z"), ("dewPoint", "17.3")])]
      "dewPoint" = ["16.9", "17.1", "17.3"] := by decide
  rw [hobs] at h
  have h1 : qval "16.9" = mkRat 169 10 := by decide
  have h2 : qval "17.1" = mkRat 171 10 := by decide
  have h3 : qval "17.3" = mkRat 173 10 := by decide
  have he : ((["16.9", "17.1", "17.3"].map qval).sum
      / ((["16.9", "17.1", "17.3"] : List String).length : ℚ)) = mkRat 171 10 := by
    simp only [List.map_cons, List.map_nil, List.sum_cons, List.sum_nil, List.length_cons,
      List.length_nil, h1, h2, h3, Rat.mkRat_eq_divInt, Rat.divInt_eq_div]
    norm_num
  rwa [he] at h

end Garden
